import Mathlib

/-!
Verification development for a protobuf schema comparator.

The program compares two protobuf schema files and produces a hierarchical
report (`Section` tree with `Item` leaves) of structural differences.
This file gives a shallow embedding of the comparator: descriptor data
(messages, fields, enums), the comparison functions, the report tree with
its `trim` and printing operations, and theorems about them.

Modelling conventions:
- C++ `int` field/value numbers are modelled as `Int`.
- Protobuf float/double default values are modelled as exact rationals
  (the comparator only ever tests them for equality).
- Descriptor pointers (`enum_type()`, `message_type()`) are modelled as
  `Option`; the loader guarantees they are non-null exactly when the field
  type is enum/message, so the `none` case is outside the caller contract.
-/

/-- The kinds of atomic difference items (`Comparison::ItemType`). -/
inductive ItemType where
  | Enum_Value_Id_Changed
  | Enum_Value_Added
  | Enum_Value_Removed
  | Message_Field_Name_Changed
  | Message_Field_Id_Changed
  | Message_Field_Label_Changed
  | Message_Field_Type_Changed
  | Message_Field_Default_Value_Changed
  | Message_Field_Added
  | Message_Field_Removed
  | File_Message_Added
  | File_Message_Removed
  | File_Enum_Added
  | File_Enum_Removed
  | Name_Missing
deriving DecidableEq

/-- One atomic difference (`Comparison::Item`): a kind and two strings. -/
structure Item where
  type : ItemType
  a : String
  b : String
deriving DecidableEq

/-- The kinds of report-tree nodes (`Comparison::SectionType`). -/
inductive SectionType where
  | Root_Section
  | Message_Comparison
  | Message_Field_Comparison
  | Enum_Comparison
  | Enum_Value_Comparison
deriving DecidableEq

/-- One node of the report tree (`Comparison::Section`): a kind, the two
entity names, child sections and items. -/
inductive Section : Type where
  | mk (type : SectionType) (a : String) (b : String)
       (subsections : List Section) (items : List Item) : Section

def Section.type : Section → SectionType
  | .mk t _ _ _ _ => t

def Section.a : Section → String
  | .mk _ a _ _ _ => a

def Section.b : Section → String
  | .mk _ _ b _ _ => b

def Section.subsections : Section → List Section
  | .mk _ _ _ subs _ => subs

def Section.items : Section → List Item
  | .mk _ _ _ _ its => its

/-- `Section::is_empty`: no subsections and no items. -/
def Section.is_empty (s : Section) : Bool :=
  s.subsections.isEmpty && s.items.isEmpty

/-- Field labels (`FieldDescriptor::Label`). -/
inductive Label where
  | LABEL_OPTIONAL
  | LABEL_REQUIRED
  | LABEL_REPEATED
deriving DecidableEq

/-- Wire-level field types (`FieldDescriptor::Type`). -/
inductive FieldType where
  | TYPE_DOUBLE
  | TYPE_FLOAT
  | TYPE_INT64
  | TYPE_UINT64
  | TYPE_INT32
  | TYPE_FIXED64
  | TYPE_FIXED32
  | TYPE_BOOL
  | TYPE_STRING
  | TYPE_GROUP
  | TYPE_MESSAGE
  | TYPE_BYTES
  | TYPE_UINT32
  | TYPE_ENUM
  | TYPE_SFIXED32
  | TYPE_SFIXED64
  | TYPE_SINT32
  | TYPE_SINT64
deriving DecidableEq

/-- C-level value kinds (`FieldDescriptor::CppType`). -/
inductive CppType where
  | CPPTYPE_INT32
  | CPPTYPE_INT64
  | CPPTYPE_UINT32
  | CPPTYPE_UINT64
  | CPPTYPE_FLOAT
  | CPPTYPE_DOUBLE
  | CPPTYPE_BOOL
  | CPPTYPE_STRING
  | CPPTYPE_ENUM
  | CPPTYPE_MESSAGE
deriving DecidableEq

/-- `FieldDescriptor::cpp_type()`: the C-level kind determined by the wire type. -/
def FieldType.cppType : FieldType → CppType
  | .TYPE_DOUBLE => .CPPTYPE_DOUBLE
  | .TYPE_FLOAT => .CPPTYPE_FLOAT
  | .TYPE_INT64 => .CPPTYPE_INT64
  | .TYPE_UINT64 => .CPPTYPE_UINT64
  | .TYPE_INT32 => .CPPTYPE_INT32
  | .TYPE_FIXED64 => .CPPTYPE_UINT64
  | .TYPE_FIXED32 => .CPPTYPE_UINT32
  | .TYPE_BOOL => .CPPTYPE_BOOL
  | .TYPE_STRING => .CPPTYPE_STRING
  | .TYPE_GROUP => .CPPTYPE_MESSAGE
  | .TYPE_MESSAGE => .CPPTYPE_MESSAGE
  | .TYPE_BYTES => .CPPTYPE_STRING
  | .TYPE_UINT32 => .CPPTYPE_UINT32
  | .TYPE_ENUM => .CPPTYPE_ENUM
  | .TYPE_SFIXED32 => .CPPTYPE_INT32
  | .TYPE_SFIXED64 => .CPPTYPE_INT64
  | .TYPE_SINT32 => .CPPTYPE_INT32
  | .TYPE_SINT64 => .CPPTYPE_INT64

/-- `FieldDescriptor::type_name()`: the lowercase name of the wire type. -/
def FieldType.type_name : FieldType → String
  | .TYPE_DOUBLE => "double"
  | .TYPE_FLOAT => "float"
  | .TYPE_INT64 => "int64"
  | .TYPE_UINT64 => "uint64"
  | .TYPE_INT32 => "int32"
  | .TYPE_FIXED64 => "fixed64"
  | .TYPE_FIXED32 => "fixed32"
  | .TYPE_BOOL => "bool"
  | .TYPE_STRING => "string"
  | .TYPE_GROUP => "group"
  | .TYPE_MESSAGE => "message"
  | .TYPE_BYTES => "bytes"
  | .TYPE_UINT32 => "uint32"
  | .TYPE_ENUM => "enum"
  | .TYPE_SFIXED32 => "sfixed32"
  | .TYPE_SFIXED64 => "sfixed64"
  | .TYPE_SINT32 => "sint32"
  | .TYPE_SINT64 => "sint64"

/-- One enum value (`EnumValueDescriptor`): a name and a numeric id. -/
structure EnumValue where
  name : String
  number : Int
deriving DecidableEq

/-- An enum descriptor (`EnumDescriptor`): short name, qualified name,
and the ordered values. -/
structure EnumDescriptor where
  name : String
  full_name : String
  values : List EnumValue
deriving DecidableEq

/-- `EnumDescriptor::FindValueByName`. -/
def EnumDescriptor.findValueByName (e : EnumDescriptor) (n : String) : Option EnumValue :=
  e.values.find? (fun v => v.name == n)

/-- A typed default value, one variant per C-level kind that can carry one
(float/double modelled as exact rationals; enum defaults carry the
referenced value descriptor). -/
inductive DefaultValue where
  | int32 (v : Int)
  | int64 (v : Int)
  | uint32 (v : Nat)
  | uint64 (v : Nat)
  | float (v : Rat)
  | double (v : Rat)
  | bool (v : Bool)
  | string (v : String)
  | enumv (v : EnumValue)
deriving DecidableEq

mutual
/-- A message descriptor (`Descriptor`): short name, qualified name, fields. -/
inductive MessageDescriptor : Type where
  | mk (name : String) (full_name : String)
       (fields : List FieldDescriptor) : MessageDescriptor

/-- A field descriptor (`FieldDescriptor`). `enum_type`/`message_type` are
the referenced descriptors when the field's type is enum/message. -/
inductive FieldDescriptor : Type where
  | mk (name : String) (full_name : String) (number : Int) (label : Label)
       (type : FieldType) (default_value : Option DefaultValue)
       (enum_type : Option EnumDescriptor)
       (message_type : Option MessageDescriptor) : FieldDescriptor
end

def MessageDescriptor.name : MessageDescriptor → String
  | .mk n _ _ => n

def MessageDescriptor.full_name : MessageDescriptor → String
  | .mk _ fn _ => fn

def MessageDescriptor.fields : MessageDescriptor → List FieldDescriptor
  | .mk _ _ fs => fs

def FieldDescriptor.name : FieldDescriptor → String
  | .mk n _ _ _ _ _ _ _ => n

def FieldDescriptor.full_name : FieldDescriptor → String
  | .mk _ fn _ _ _ _ _ _ => fn

def FieldDescriptor.number : FieldDescriptor → Int
  | .mk _ _ num _ _ _ _ _ => num

def FieldDescriptor.label : FieldDescriptor → Label
  | .mk _ _ _ lb _ _ _ _ => lb

def FieldDescriptor.type : FieldDescriptor → FieldType
  | .mk _ _ _ _ tp _ _ _ => tp

def FieldDescriptor.default_value : FieldDescriptor → Option DefaultValue
  | .mk _ _ _ _ _ dv _ _ => dv

def FieldDescriptor.enum_type : FieldDescriptor → Option EnumDescriptor
  | .mk _ _ _ _ _ _ et _ => et

def FieldDescriptor.message_type : FieldDescriptor → Option MessageDescriptor
  | .mk _ _ _ _ _ _ _ mt => mt

/-- `FieldDescriptor::cpp_type()`. -/
def FieldDescriptor.cpp_type (f : FieldDescriptor) : CppType :=
  f.type.cppType

/-- `FieldDescriptor::has_default_value()`. -/
def FieldDescriptor.has_default_value (f : FieldDescriptor) : Bool :=
  f.default_value.isSome

/-- `FieldDescriptor::default_value_int32()` (0 when absent or of another kind). -/
def FieldDescriptor.default_value_int32 (f : FieldDescriptor) : Int :=
  match f.default_value with
  | some (.int32 v) => v
  | _ => 0

/-- `FieldDescriptor::default_value_int64()`. -/
def FieldDescriptor.default_value_int64 (f : FieldDescriptor) : Int :=
  match f.default_value with
  | some (.int64 v) => v
  | _ => 0

/-- `FieldDescriptor::default_value_uint32()`. -/
def FieldDescriptor.default_value_uint32 (f : FieldDescriptor) : Nat :=
  match f.default_value with
  | some (.uint32 v) => v
  | _ => 0

/-- `FieldDescriptor::default_value_uint64()`. -/
def FieldDescriptor.default_value_uint64 (f : FieldDescriptor) : Nat :=
  match f.default_value with
  | some (.uint64 v) => v
  | _ => 0

/-- `FieldDescriptor::default_value_float()`. -/
def FieldDescriptor.default_value_float (f : FieldDescriptor) : Rat :=
  match f.default_value with
  | some (.float v) => v
  | _ => 0

/-- `FieldDescriptor::default_value_double()`. -/
def FieldDescriptor.default_value_double (f : FieldDescriptor) : Rat :=
  match f.default_value with
  | some (.double v) => v
  | _ => 0

/-- `FieldDescriptor::default_value_bool()`. -/
def FieldDescriptor.default_value_bool (f : FieldDescriptor) : Bool :=
  match f.default_value with
  | some (.bool v) => v
  | _ => false

/-- `FieldDescriptor::default_value_string()`. -/
def FieldDescriptor.default_value_string (f : FieldDescriptor) : String :=
  match f.default_value with
  | some (.string v) => v
  | _ => ""

/-- `FieldDescriptor::default_value_enum()` (a dummy value when absent). -/
def FieldDescriptor.default_value_enum (f : FieldDescriptor) : EnumValue :=
  match f.default_value with
  | some (.enumv v) => v
  | _ => ⟨"", 0⟩

/-- `Descriptor::FindFieldByName`. -/
def MessageDescriptor.findFieldByName (d : MessageDescriptor) (n : String) :
    Option FieldDescriptor :=
  d.fields.find? (fun f => f.name == n)

/-- `Comparison::compare_default_value`, translated statement by statement.
Note the source compares `field1` against itself in the uint32, double,
bool, string and enum branches. -/
def compare_default_value (f1 f2 : FieldDescriptor) : Bool :=
  if f1.has_default_value ≠ f2.has_default_value then false
  else if !f1.has_default_value then true
  else if f1.cpp_type ≠ f2.cpp_type then false
  else
    match f1.cpp_type with
    | .CPPTYPE_INT32 => decide (f1.default_value_int32 = f2.default_value_int32)
    | .CPPTYPE_INT64 => decide (f1.default_value_int64 = f2.default_value_int64)
    | .CPPTYPE_UINT32 => decide (f1.default_value_uint32 = f1.default_value_uint32)
    | .CPPTYPE_UINT64 => decide (f1.default_value_uint64 = f2.default_value_uint64)
    | .CPPTYPE_FLOAT => decide (f1.default_value_float = f2.default_value_float)
    | .CPPTYPE_DOUBLE => decide (f1.default_value_double = f1.default_value_double)
    | .CPPTYPE_BOOL => decide (f1.default_value_bool = f1.default_value_bool)
    | .CPPTYPE_STRING => decide (f1.default_value_string = f1.default_value_string)
    | .CPPTYPE_ENUM => decide (f1.default_value_enum.number = f1.default_value_enum.number)
    | .CPPTYPE_MESSAGE => false

/-- Pass 1 of enum comparison, subsection part: for each value of the first
enum found by name in the second, an `Enum_Value_Comparison` subsection,
with an `Enum_Value_Id_Changed` item when the numeric ids differ. -/
def enumPass1Subs : List EnumValue → EnumDescriptor → List Section
  | [], _ => []
  | v :: rest, e2 =>
    match e2.findValueByName v.name with
    | some v2 =>
      Section.mk .Enum_Value_Comparison v.name v2.name []
        (if v.number = v2.number then []
         else [⟨.Enum_Value_Id_Changed, toString v.number, toString v2.number⟩])
      :: enumPass1Subs rest e2
    | none => enumPass1Subs rest e2

/-- Pass 1 of enum comparison, item part: an `Enum_Value_Removed` item for
each value of the first enum with no same-named value in the second. -/
def enumPass1Items : List EnumValue → EnumDescriptor → List Item
  | [], _ => []
  | v :: rest, e2 =>
    match e2.findValueByName v.name with
    | some _ => enumPass1Items rest e2
    | none => ⟨.Enum_Value_Removed, v.name, ""⟩ :: enumPass1Items rest e2

/-- Pass 2 of enum comparison: an `Enum_Value_Added` item for each value of
the second enum with no same-named value in the first. -/
def enumPass2Items : List EnumValue → EnumDescriptor → List Item
  | [], _ => []
  | v :: rest, e1 =>
    match e1.findValueByName v.name with
    | some _ => enumPass2Items rest e1
    | none => ⟨.Enum_Value_Added, "", v.name⟩ :: enumPass2Items rest e1

/-- `Comparison::compare(const EnumDescriptor*, const EnumDescriptor*)`.
The C++ loops append subsections and items to two separate lists, so the
result is exactly the pass-1 subsections, and the pass-1 items followed by
the pass-2 items. -/
def compareEnum (e1 e2 : EnumDescriptor) : Section :=
  Section.mk .Enum_Comparison e1.full_name e2.full_name
    (enumPass1Subs e1.values e2)
    (enumPass1Items e1.values e2 ++ enumPass2Items e2.values e1)

/-- Pass 1 of message comparison, item part: `Message_Field_Removed` for
each field of the first message with no same-named field in the second. -/
def msgRemovedItems : List FieldDescriptor → MessageDescriptor → List Item
  | [], _ => []
  | f :: rest, d2 =>
    match d2.findFieldByName f.name with
    | some _ => msgRemovedItems rest d2
    | none => ⟨.Message_Field_Removed, f.name, ""⟩ :: msgRemovedItems rest d2

/-- Pass 2 of message comparison: `Message_Field_Added` for each field of
the second message with no same-named field in the first. -/
def msgAddedItems : List FieldDescriptor → MessageDescriptor → List Item
  | [], _ => []
  | f :: rest, d1 =>
    match d1.findFieldByName f.name with
    | some _ => msgAddedItems rest d1
    | none => ⟨.Message_Field_Added, "", f.name⟩ :: msgAddedItems rest d1

/-- The item component of field comparison contributed by the type check:
a `Message_Field_Type_Changed` item when the wire types differ, or when
they agree on enum/message but the referenced qualified names differ. -/
def fieldTypeItems (f1 f2 : FieldDescriptor) : List Item :=
  if f1.type ≠ f2.type then
    [⟨.Message_Field_Type_Changed, f1.type.type_name, f2.type.type_name⟩]
  else if f1.type = .TYPE_ENUM then
    match f1.enum_type, f2.enum_type with
    | some e1, some e2 =>
      if e1.full_name = e2.full_name then []
      else [⟨.Message_Field_Type_Changed, e1.full_name, e2.full_name⟩]
    | _, _ => []
  else if f1.type = .TYPE_MESSAGE then
    match f1.message_type, f2.message_type with
    | some m1, some m2 =>
      if m1.full_name = m2.full_name then []
      else [⟨.Message_Field_Type_Changed, m1.full_name, m2.full_name⟩]
    | _, _ => []
  else []

/-- The items of field comparison, in the order the C++ checks run: name,
id, label, type, default value. -/
def fieldItems (f1 f2 : FieldDescriptor) : List Item :=
  (if f1.name ≠ f2.name then [⟨.Message_Field_Name_Changed, f1.name, f2.name⟩] else [])
  ++ (if f1.number ≠ f2.number then
        [⟨.Message_Field_Id_Changed, toString f1.number, toString f2.number⟩]
      else [])
  ++ (if f1.label ≠ f2.label then [⟨.Message_Field_Label_Changed, "", ""⟩] else [])
  ++ fieldTypeItems f1 f2
  ++ (if f1.cpp_type = f2.cpp_type then
        if compare_default_value f1 f2 then []
        else [⟨.Message_Field_Default_Value_Changed, "", ""⟩]
      else [])

mutual
/-- `Comparison::compare(const Descriptor*, const Descriptor*)`. -/
def compareMsg : MessageDescriptor → MessageDescriptor → Section
  | .mk nm fn fields, d2 =>
    Section.mk .Message_Comparison fn d2.full_name
      (compareMsgSubs fields d2)
      (msgRemovedItems fields d2 ++ msgAddedItems d2.fields (.mk nm fn fields))
termination_by d _ => sizeOf d

/-- Pass 1 of message comparison, subsection part: a field-pair comparison
for each field of the first message found by name in the second. -/
def compareMsgSubs : List FieldDescriptor → MessageDescriptor → List Section
  | [], _ => []
  | f :: rest, d2 =>
    match d2.findFieldByName f.name with
    | some f2 => compareField f f2 :: compareMsgSubs rest d2
    | none => compareMsgSubs rest d2
termination_by fs _ => sizeOf fs

/-- The subsection component of field comparison: when the wire types
agree, recurse into the referenced enums or messages (the C++ pointers are
non-null whenever the field type is enum/message). -/
def fieldSubsections : FieldType → Option EnumDescriptor → Option MessageDescriptor →
    FieldDescriptor → List Section
  | tp1, et1, mt1, f2 =>
    if tp1 = f2.type then
      if tp1 = .TYPE_ENUM then
        match et1, f2.enum_type with
        | some e1, some e2 => [compareEnum e1 e2]
        | _, _ => []
      else if tp1 = .TYPE_MESSAGE then
        match mt1, f2.message_type with
        | some m1, some m2 => [compareMsg m1 m2]
        | _, _ => []
      else []
    else []
termination_by _ _ mt1 _ => sizeOf mt1

/-- `Comparison::compare(const FieldDescriptor*, const FieldDescriptor*)`. -/
def compareField : FieldDescriptor → FieldDescriptor → Section
  | .mk n1 fn1 num1 lb1 tp1 dv1 et1 mt1, f2 =>
    Section.mk .Message_Field_Comparison fn1 f2.full_name
      (fieldSubsections tp1 et1 mt1 f2)
      (fieldItems (.mk n1 fn1 num1 lb1 tp1 dv1 et1 mt1) f2)
termination_by f _ => sizeOf f
end

/-- A schema file (`FileDescriptor`): the top-level messages and enums. -/
structure FileDescriptor where
  message_types : List MessageDescriptor
  enum_types : List EnumDescriptor

/-- `FileDescriptor::FindMessageTypeByName` (short name). -/
def FileDescriptor.findMessageTypeByName (fd : FileDescriptor) (n : String) :
    Option MessageDescriptor :=
  fd.message_types.find? (fun m => m.name == n)

/-- `FileDescriptor::FindEnumTypeByName` (short name). -/
def FileDescriptor.findEnumTypeByName (fd : FileDescriptor) (n : String) :
    Option EnumDescriptor :=
  fd.enum_types.find? (fun e => e.name == n)

/-- A descriptor pool (`DescriptorPool`): resolves qualified type names. -/
structure Pool where
  messages : List MessageDescriptor
  enums : List EnumDescriptor

/-- `DescriptorPool::FindMessageTypeByName` (qualified name). -/
def Pool.findMessageTypeByName (p : Pool) (n : String) : Option MessageDescriptor :=
  p.messages.find? (fun m => m.full_name == n)

/-- `DescriptorPool::FindEnumTypeByName` (qualified name). -/
def Pool.findEnumTypeByName (p : Pool) (n : String) : Option EnumDescriptor :=
  p.enums.find? (fun e => e.full_name == n)

/-- A loaded schema (`Source`): its file descriptor and its pool. -/
structure Source where
  file : FileDescriptor
  pool : Pool

/-- Whole-schema pass 1, subsection part: a message comparison for each
top-level message of the first file found by short name in the second. -/
def filesMsgSubs : List MessageDescriptor → FileDescriptor → List Section
  | [], _ => []
  | m :: rest, f2 =>
    match f2.findMessageTypeByName m.name with
    | some m2 => compareMsg m m2 :: filesMsgSubs rest f2
    | none => filesMsgSubs rest f2

/-- Whole-schema pass 1, item part: `File_Message_Removed` for each
top-level message of the first file absent from the second. -/
def filesMsgRemoved : List MessageDescriptor → FileDescriptor → List Item
  | [], _ => []
  | m :: rest, f2 =>
    match f2.findMessageTypeByName m.name with
    | some _ => filesMsgRemoved rest f2
    | none => ⟨.File_Message_Removed, m.full_name, ""⟩ :: filesMsgRemoved rest f2

/-- Whole-schema pass 2: `File_Message_Added` for each top-level message of
the second file absent from the first. The source passes `" "` (one space)
as the `before` string here. -/
def filesMsgAdded : List MessageDescriptor → FileDescriptor → List Item
  | [], _ => []
  | m :: rest, f1 =>
    match f1.findMessageTypeByName m.name with
    | some _ => filesMsgAdded rest f1
    | none => ⟨.File_Message_Added, " ", m.full_name⟩ :: filesMsgAdded rest f1

/-- Whole-schema pass 3, subsection part: an enum comparison for each
top-level enum of the first file found by short name in the second. -/
def filesEnumSubs : List EnumDescriptor → FileDescriptor → List Section
  | [], _ => []
  | e :: rest, f2 =>
    match f2.findEnumTypeByName e.name with
    | some e2 => compareEnum e e2 :: filesEnumSubs rest f2
    | none => filesEnumSubs rest f2

/-- Whole-schema pass 3, item part: `File_Enum_Removed` for each top-level
enum of the first file absent from the second. -/
def filesEnumRemoved : List EnumDescriptor → FileDescriptor → List Item
  | [], _ => []
  | e :: rest, f2 =>
    match f2.findEnumTypeByName e.name with
    | some _ => filesEnumRemoved rest f2
    | none => ⟨.File_Enum_Removed, e.full_name, ""⟩ :: filesEnumRemoved rest f2

/-- Whole-schema pass 4: `File_Enum_Added` for each top-level enum of the
second file absent from the first. -/
def filesEnumAdded : List EnumDescriptor → FileDescriptor → List Item
  | [], _ => []
  | e :: rest, f1 =>
    match f1.findEnumTypeByName e.name with
    | some _ => filesEnumAdded rest f1
    | none => ⟨.File_Enum_Added, "", e.full_name⟩ :: filesEnumAdded rest f1

/-- `Comparison::compare(Source&, Source&)`: the whole-schema pass, applied
to the fresh root section `{Root_Section, "", ""}`. The four C++ loops
append subsections and items to two separate lists of the root, so the
result collects the message subsections then the enum subsections, and the
removed/added items in pass order. -/
def compareFiles (f1 f2 : FileDescriptor) : Section :=
  Section.mk .Root_Section "" ""
    (filesMsgSubs f1.message_types f2 ++ filesEnumSubs f1.enum_types f2)
    (filesMsgRemoved f1.message_types f2 ++ filesMsgAdded f2.message_types f1
      ++ filesEnumRemoved f1.enum_types f2 ++ filesEnumAdded f2.enum_types f1)

/-- `Comparison::compare(Source&, Source&, const string&)`: single-entity
comparison by qualified name, applied to the fresh root section. -/
def compareByName (s1 s2 : Source) (nm : String) : Section :=
  let desc1 := s1.pool.findMessageTypeByName nm
  let desc2 := s2.pool.findMessageTypeByName nm
  let enum1 := s1.pool.findEnumTypeByName nm
  let enum2 := s2.pool.findEnumTypeByName nm
  match desc1, desc2 with
  | some d1, some d2 => Section.mk .Root_Section "" "" [compareMsg d1 d2] []
  | _, _ =>
    match enum1, enum2 with
    | some e1, some e2 => Section.mk .Root_Section "" "" [compareEnum e1 e2] []
    | _, _ => Section.mk .Root_Section "" "" [] [⟨.Name_Missing, nm, nm⟩]

mutual
/-- `Section::trim`: trim each subsection recursively, then drop the ones
that end up empty. -/
def Section.trim : Section → Section
  | .mk t a b subs its => .mk t a b (trimList subs) its
termination_by s => sizeOf s

/-- The loop body of `Section::trim` over the subsection list. -/
def trimList : List Section → List Section
  | [] => []
  | s :: rest =>
    let s' := s.trim
    if s'.is_empty then trimList rest else s' :: trimList rest
termination_by l => sizeOf l
end

mutual
/-- Whether a section carries an item anywhere in its subtree. -/
def Section.hasItemDeep : Section → Bool
  | .mk _ _ _ subs its => !its.isEmpty || listHasItemDeep subs
termination_by s => sizeOf s

/-- Whether any section of the list carries an item in its subtree. -/
def listHasItemDeep : List Section → Bool
  | [] => false
  | s :: rest => s.hasItemDeep || listHasItemDeep rest
termination_by l => sizeOf l
end

/-- `Comparison::Item::message`: a one-line description. Every `ItemType`
is covered by the switch, so each line carries the two payload strings. -/
def Item.message (it : Item) : String :=
  let msg : String :=
    match it.type with
    | .Enum_Value_Id_Changed => "Value ID changed"
    | .Enum_Value_Added => "Value added"
    | .Enum_Value_Removed => "Value removed"
    | .Message_Field_Name_Changed => "Name changed"
    | .Message_Field_Id_Changed => "ID changed"
    | .Message_Field_Label_Changed => "Label changed"
    | .Message_Field_Type_Changed => "Type changed"
    | .Message_Field_Default_Value_Changed => "Default value changed"
    | .Message_Field_Added => "Field added"
    | .Message_Field_Removed => "Field removed"
    | .File_Message_Added => "Message added"
    | .File_Message_Removed => "Message removed"
    | .File_Enum_Added => "Enum added"
    | .File_Enum_Removed => "Enum removed"
    | .Name_Missing => "Name missing"
  msg ++ ": " ++ it.a ++ " -> " ++ it.b

/-- `Comparison::Section::message`: the section's own one-line description. -/
def Section.message (s : Section) : String :=
  match s.type with
  | .Root_Section => "/"
  | .Message_Comparison => "Comparing messages: " ++ s.a ++ " -> " ++ s.b
  | .Message_Field_Comparison => "Comparing message fields: " ++ s.a ++ " -> " ++ s.b
  | .Enum_Comparison => "Comparing enums: " ++ s.a ++ " -> " ++ s.b
  | .Enum_Value_Comparison => "Comparing enum values: " ++ s.a ++ " -> " ++ s.b

/-- `string(n, ' ')`: an indentation string of `n` spaces. -/
def indentStr (n : Nat) : String :=
  String.mk (List.replicate n ' ')

/-- The item loop of `Section::print`: append one bullet line per item to
the output accumulated so far. -/
def printItemsAcc : List Item → String → String → String
  | [], _, acc => acc
  | it :: rest, pre, acc => printItemsAcc rest pre (acc ++ pre ++ "* " ++ it.message ++ "\n")

mutual
/-- `Section::print`, as a function from the output emitted so far to the
output after printing: own line at `2*level` spaces, then the items at one
more level, then the subsections at one more level. -/
def Section.printAcc : Section → Nat → String → String
  | .mk t a b subs its, level, acc =>
    let acc1 := acc ++ indentStr (level * 2) ++ (Section.mk t a b subs its).message ++ "\n"
    let lv := level + 1
    let acc2 := printItemsAcc its (indentStr (lv * 2)) acc1
    printSubsAcc subs lv acc2
termination_by s _ _ => sizeOf s

/-- The subsection loop of `Section::print`. -/
def printSubsAcc : List Section → Nat → String → String
  | [], _, acc => acc
  | s :: rest, lv, acc => printSubsAcc rest lv (s.printAcc lv acc)
termination_by l _ _ => sizeOf l
end

/-- The whole program run on two loaded schemas (`main` after loading):
route `"."` to the whole-schema comparison and any other name to the
single-entity comparison, then trim and print the root. -/
def runComparison (s1 s2 : Source) (nm : String) : String :=
  let root := if nm = "." then compareFiles s1.file s2.file else compareByName s1 s2 nm
  root.trim.printAcc 0 ""

/-- Schema invariant for an enum: value names are unique within the enum. -/
def EnumDescriptor.wfB (e : EnumDescriptor) : Bool :=
  decide ((e.values.map EnumValue.name).Nodup)

/-- Schema invariant for an optional referenced enum. -/
def optEnumWfB : Option EnumDescriptor → Bool
  | none => true
  | some e => e.wfB

mutual
/-- Schema invariant for a message: field names are unique within the
message, and every field is well-formed. -/
def MessageDescriptor.wfB : MessageDescriptor → Bool
  | .mk _ _ fs => decide ((fs.map FieldDescriptor.name).Nodup) && fieldsWfB fs
termination_by d => sizeOf d

/-- Schema invariant for a field list. -/
def fieldsWfB : List FieldDescriptor → Bool
  | [] => true
  | f :: rest => f.wfB && fieldsWfB rest
termination_by l => sizeOf l

/-- Schema invariant for a field: referenced enum and message types are
well-formed, and a message-kind field carries no default value. -/
def FieldDescriptor.wfB : FieldDescriptor → Bool
  | .mk _ _ _ _ tp dv et mt =>
    optEnumWfB et && optMsgWfB mt
      && (!decide (tp.cppType = CppType.CPPTYPE_MESSAGE) || dv.isNone)
termination_by f => sizeOf f

/-- Schema invariant for an optional referenced message. -/
def optMsgWfB : Option MessageDescriptor → Bool
  | none => true
  | some m => m.wfB
termination_by om => sizeOf om
end

/-- Schema invariant for a file: top-level type names are unique and every
top-level message and enum is well-formed. -/
def FileDescriptor.wfB (fd : FileDescriptor) : Bool :=
  decide ((fd.message_types.map MessageDescriptor.name).Nodup)
    && decide ((fd.enum_types.map EnumDescriptor.name).Nodup)
    && fd.message_types.all MessageDescriptor.wfB
    && fd.enum_types.all EnumDescriptor.wfB

/-- Structural induction for the report tree. -/
def Section.inductionOn (P : Section → Prop)
    (step : ∀ t a b subs its, (∀ s, s ∈ subs → P s) → P (.mk t a b subs its)) :
    ∀ s, P s
  | .mk t a b subs its =>
    step t a b subs its (fun s _ => Section.inductionOn P step s)
termination_by s => sizeOf s
decreasing_by
  rename_i hs
  have h1 := List.sizeOf_lt_of_mem hs
  simp only [Section.mk.sizeOf_spec]
  omega

mutual
/-- Mutual structural induction for message and field descriptors. -/
def MessageDescriptor.inductionOn (P : MessageDescriptor → Prop)
    (Q : FieldDescriptor → Prop)
    (hm : ∀ nm fn fs, (∀ f, f ∈ fs → Q f) → P (.mk nm fn fs))
    (hf : ∀ n fn num lb tp dv et mt, (∀ m, mt = some m → P m) →
          Q (.mk n fn num lb tp dv et mt)) :
    ∀ d, P d
  | .mk nm fn fs =>
    hm nm fn fs (fun f _ => FieldDescriptor.inductionOn P Q hm hf f)
termination_by d => sizeOf d
decreasing_by
  rename_i hmem
  have h1 := List.sizeOf_lt_of_mem hmem
  simp only [MessageDescriptor.mk.sizeOf_spec]
  omega

/-- Mutual structural induction, field side. -/
def FieldDescriptor.inductionOn (P : MessageDescriptor → Prop)
    (Q : FieldDescriptor → Prop)
    (hm : ∀ nm fn fs, (∀ f, f ∈ fs → Q f) → P (.mk nm fn fs))
    (hf : ∀ n fn num lb tp dv et mt, (∀ m, mt = some m → P m) →
          Q (.mk n fn num lb tp dv et mt)) :
    ∀ f, Q f
  | .mk n fn num lb tp dv et mt =>
    hf n fn num lb tp dv et mt
      (fun m _ => MessageDescriptor.inductionOn P Q hm hf m)
termination_by f => sizeOf f
decreasing_by
  rename_i hmeq
  subst hmeq
  simp only [FieldDescriptor.mk.sizeOf_spec, Option.some.sizeOf_spec]
  omega
end

/-- Looking up a name that some member carries succeeds. -/
theorem find_name_isSome {α : Type} (nm : α → String) (l : List α) (k : String)
    (h : k ∈ l.map nm) : (l.find? (fun y => nm y == k)).isSome := by
  rcases List.mem_map.mp h with ⟨x, hx, rfl⟩
  rw [List.find?_isSome]
  exact ⟨x, hx, by simp⟩

/-- Looking up a name that no member carries fails. -/
theorem find_name_none {α : Type} (nm : α → String) (l : List α) (k : String)
    (h : k ∉ l.map nm) : l.find? (fun y => nm y == k) = none := by
  rw [List.find?_eq_none]
  intro x hx
  simp only [beq_eq_false_iff_ne, ne_eq, Bool.not_eq_true, beq_iff_eq]
  intro he
  exact h (he ▸ List.mem_map_of_mem nm hx)

/-- Pass 1 of enum comparison emits no removed item when every value name
of the list is found in the second enum. -/
theorem enumPass1Items_nil (vs : List EnumValue) (e2 : EnumDescriptor)
    (h : ∀ v ∈ vs, (e2.findValueByName v.name).isSome) :
    enumPass1Items vs e2 = [] := by
  induction vs with
  | nil => rfl
  | cons v rest ih =>
    have hv := h v (List.mem_cons_self v rest)
    cases hfind : e2.findValueByName v.name with
    | none => rw [hfind] at hv; simp at hv
    | some w =>
      simp only [enumPass1Items, hfind]
      exact ih (fun u hu => h u (List.mem_cons_of_mem v hu))

/-- Pass 2 of enum comparison emits no added item when every value name of
the list is found in the first enum. -/
theorem enumPass2Items_nil (vs : List EnumValue) (e1 : EnumDescriptor)
    (h : ∀ v ∈ vs, (e1.findValueByName v.name).isSome) :
    enumPass2Items vs e1 = [] := by
  induction vs with
  | nil => rfl
  | cons v rest ih =>
    have hv := h v (List.mem_cons_self v rest)
    cases hfind : e1.findValueByName v.name with
    | none => rw [hfind] at hv; simp at hv
    | some w =>
      simp only [enumPass2Items, hfind]
      exact ih (fun u hu => h u (List.mem_cons_of_mem v hu))

/-- A list with no deep items has no deep item at any member. -/
theorem listHasItemDeep_false_mem (l : List Section)
    (h : listHasItemDeep l = false) : ∀ u ∈ l, u.hasItemDeep = false := by
  induction l with
  | nil => intro u hu; cases hu
  | cons s rest ih =>
    simp only [listHasItemDeep, Bool.or_eq_false_iff] at h
    intro u hu
    rcases List.mem_cons.mp hu with rfl | hu'
    · exact h.1
    · exact ih h.2 u hu'

/-- The trim loop removes every subsection when each trims to empty. -/
theorem trimList_nil_of_empty (l : List Section)
    (h : ∀ s ∈ l, s.trim.is_empty = true) : trimList l = [] := by
  induction l with
  | nil => simp [trimList]
  | cons s rest ih =>
    simp only [trimList]
    rw [if_pos (h s (List.mem_cons_self s rest))]
    exact ih (fun u hu => h u (List.mem_cons_of_mem s hu))

/-- A report subtree with no items anywhere trims to an empty section. -/
theorem trim_isEmpty_of_noItem :
    ∀ s : Section, s.hasItemDeep = false → s.trim.is_empty = true := by
  apply Section.inductionOn (fun s => s.hasItemDeep = false → s.trim.is_empty = true)
  intro t a b subs its ih h
  simp only [Section.hasItemDeep, Bool.or_eq_false_iff] at h
  obtain ⟨hits, hsubs⟩ := h
  have hits' : its.isEmpty = true := by simpa using hits
  have hsubnil : trimList subs = [] := by
    apply trimList_nil_of_empty
    intro u hu
    exact ih u hu (listHasItemDeep_false_mem subs hsubs u hu)
  simp [Section.trim, Section.is_empty, Section.subsections, Section.items,
    hsubnil, hits']

/-- The trim loop keeps a nonempty result when some member trims nonempty. -/
theorem trimList_ne_nil_of_item (l : List Section)
    (ihs : ∀ s ∈ l, s.hasItemDeep = true → s.trim.is_empty = false)
    (hl : listHasItemDeep l = true) : trimList l ≠ [] := by
  induction l with
  | nil => simp [listHasItemDeep] at hl
  | cons s rest ih =>
    simp only [listHasItemDeep, Bool.or_eq_true] at hl
    simp only [trimList]
    by_cases hs : s.trim.is_empty = true
    · rw [if_pos hs]
      rcases hl with hl1 | hl2
      · rw [ihs s (List.mem_cons_self s rest) hl1] at hs; cases hs
      · exact ih (fun u hu => ihs u (List.mem_cons_of_mem s hu)) hl2
    · rw [if_neg hs]
      simp

/-- A report subtree with an item somewhere survives trimming nonempty. -/
theorem trim_notEmpty_of_item :
    ∀ s : Section, s.hasItemDeep = true → s.trim.is_empty = false := by
  apply Section.inductionOn (fun s => s.hasItemDeep = true → s.trim.is_empty = false)
  intro t a b subs its ih h
  simp only [Section.hasItemDeep, Bool.or_eq_true] at h
  simp only [Section.trim, Section.is_empty, Section.subsections, Section.items]
  rcases h with h1 | h2
  · have : its.isEmpty = false := by simpa using h1
    simp [this]
  · have : trimList subs ≠ [] := trimList_ne_nil_of_item subs ih h2
    simp [List.isEmpty_iff, this]

/-- The trim loop keeps exactly the subsections carrying a deep item, each
recursively trimmed. -/
theorem trimList_eq (l : List Section) :
    trimList l = (l.filter (fun c => c.hasItemDeep)).map Section.trim := by
  induction l with
  | nil => simp [trimList]
  | cons s rest ih =>
    simp only [trimList]
    by_cases h : s.hasItemDeep = true
    · rw [if_neg (by simp [trim_notEmpty_of_item s h]),
        List.filter_cons_of_pos (by simpa using h), List.map_cons, ih]
    · have h' : s.hasItemDeep = false := by simpa using h
      rw [if_pos (trim_isEmpty_of_noItem s h'),
        List.filter_cons_of_neg (by simpa using h'), ih]

/-- Whole-schema pass 1 emits no removed item when every top-level message
name is found in the second file. -/
theorem filesMsgRemoved_nil (ms : List MessageDescriptor) (f2 : FileDescriptor)
    (h : ∀ m ∈ ms, (f2.findMessageTypeByName m.name).isSome) :
    filesMsgRemoved ms f2 = [] := by
  induction ms with
  | nil => rfl
  | cons m rest ih =>
    have hm := h m (List.mem_cons_self m rest)
    cases hfind : f2.findMessageTypeByName m.name with
    | none => rw [hfind] at hm; simp at hm
    | some w =>
      simp only [filesMsgRemoved, hfind]
      exact ih (fun u hu => h u (List.mem_cons_of_mem m hu))

/-- Whole-schema pass 2 emits no added item when every top-level message
name is found in the first file. -/
theorem filesMsgAdded_nil (ms : List MessageDescriptor) (f1 : FileDescriptor)
    (h : ∀ m ∈ ms, (f1.findMessageTypeByName m.name).isSome) :
    filesMsgAdded ms f1 = [] := by
  induction ms with
  | nil => rfl
  | cons m rest ih =>
    have hm := h m (List.mem_cons_self m rest)
    cases hfind : f1.findMessageTypeByName m.name with
    | none => rw [hfind] at hm; simp at hm
    | some w =>
      simp only [filesMsgAdded, hfind]
      exact ih (fun u hu => h u (List.mem_cons_of_mem m hu))

/-- An example field used as concrete input in witnesses. -/
def egField : FieldDescriptor :=
  .mk "x" "pkg.M.x" 1 .LABEL_OPTIONAL .TYPE_INT32 (some (.int32 5)) none none

/-- An example message used as concrete input in witnesses. -/
def egMsg : MessageDescriptor := .mk "M" "pkg.M" [egField]

/-- Claim C4: trimming keeps exactly the child sections that carry an item
somewhere in their subtree (each recursively trimmed), and every surviving
child section is nonempty. -/
theorem trim_subsections_characterization (s : Section) :
    (s.trim).subsections
        = (s.subsections.filter (fun c => c.hasItemDeep)).map Section.trim
      ∧ ((s.trim).subsections.all (fun c => !c.is_empty)) = true := by
  cases s with
  | mk t a b subs its =>
    constructor
    · simp only [Section.trim, Section.subsections]
      exact trimList_eq subs
    · simp only [Section.trim, Section.subsections, List.all_eq_true]
      intro c hc
      rw [trimList_eq] at hc
      rcases List.mem_map.mp hc with ⟨c0, hc0, rfl⟩
      have hmem := List.mem_filter.mp hc0
      rw [trim_notEmpty_of_item c0 (by simpa using hmem.2)]
      rfl

/-- A uint32 field with default value 1, used as concrete input. -/
def egFieldU1 : FieldDescriptor :=
  .mk "u" "pkg.M.u" 2 .LABEL_OPTIONAL .TYPE_UINT32 (some (.uint32 1)) none none

/-- A uint32 field with default value 2, used as concrete input. -/
def egFieldU2 : FieldDescriptor :=
  .mk "u" "pkg.M.u" 2 .LABEL_OPTIONAL .TYPE_UINT32 (some (.uint32 2)) none none

/-- Claim C1 (code bug): at the failing input — two same-kind uint32 fields whose
default values differ (1 vs 2) — the default-value check returns true, so
the field-pair section carries no `Message_Field_Default_Value_Changed`
item (indeed no item at all), contrary to the specified contract. -/
theorem default_value_change_not_reported_at_failing_input :
    egFieldU1.default_value_uint32 = 1
      ∧ egFieldU2.default_value_uint32 = 2
      ∧ egFieldU1.cpp_type = egFieldU2.cpp_type
      ∧ compare_default_value egFieldU1 egFieldU2 = true
      ∧ (compareField egFieldU1 egFieldU2).items = [] := by
  refine ⟨by decide, by decide, by decide, by decide, ?_⟩
  simp only [egFieldU1, egFieldU2, compareField, Section.items]
  decide

/-- Pass 1 of enum comparison distributes over list append. -/
theorem enumPass1Items_append (xs ys : List EnumValue) (e2 : EnumDescriptor) :
    enumPass1Items (xs ++ ys) e2 = enumPass1Items xs e2 ++ enumPass1Items ys e2 := by
  induction xs with
  | nil => simp [enumPass1Items]
  | cons v rest ih =>
    cases hfind : e2.findValueByName v.name with
    | none => simp [enumPass1Items, hfind, ih]
    | some w => simp [enumPass1Items, hfind, ih]

/-- Pass 2 of enum comparison distributes over list append. -/
theorem enumPass2Items_append (xs ys : List EnumValue) (e1 : EnumDescriptor) :
    enumPass2Items (xs ++ ys) e1 = enumPass2Items xs e1 ++ enumPass2Items ys e1 := by
  induction xs with
  | nil => simp [enumPass2Items]
  | cons v rest ih =>
    cases hfind : e1.findValueByName v.name with
    | none => simp [enumPass2Items, hfind, ih]
    | some w => simp [enumPass2Items, hfind, ih]

/-- Claim C5: when one enum replaces a value named `A` by a value named `B` with
the same numeric id (all other values matching by name), the enum
comparison reports exactly one `Enum_Value_Removed` item for `A` and one
`Enum_Value_Added` item for `B` — matching is by name only, never by id,
and no single rename item exists. -/
theorem enum_value_rename_is_remove_add
    (vs : List EnumValue) (nmA nmB fnA fnB A B : String) (n : Int)
    (hA : A ∉ vs.map EnumValue.name) (hB : B ∉ vs.map EnumValue.name)
    (hAB : A ≠ B) :
    (compareEnum ⟨nmA, fnA, vs ++ [⟨A, n⟩]⟩ ⟨nmB, fnB, vs ++ [⟨B, n⟩]⟩).items
      = [⟨.Enum_Value_Removed, A, ""⟩, ⟨.Enum_Value_Added, "", B⟩] := by
  have h2A : (⟨nmB, fnB, vs ++ [⟨B, n⟩]⟩ : EnumDescriptor).findValueByName A = none := by
    apply find_name_none EnumValue.name
    simp only [List.map_append, List.mem_append, not_or]
    exact ⟨hA, by simp [hAB]⟩
  have h1B : (⟨nmA, fnA, vs ++ [⟨A, n⟩]⟩ : EnumDescriptor).findValueByName B = none := by
    apply find_name_none EnumValue.name
    simp only [List.map_append, List.mem_append, not_or]
    exact ⟨hB, by simp; exact fun h => hAB h.symm⟩
  have h2vs : ∀ v ∈ vs,
      ((⟨nmB, fnB, vs ++ [⟨B, n⟩]⟩ : EnumDescriptor).findValueByName v.name).isSome := by
    intro v hv
    apply find_name_isSome EnumValue.name
    simp only [List.map_append, List.mem_append]
    exact Or.inl (List.mem_map_of_mem _ hv)
  have h1vs : ∀ v ∈ vs,
      ((⟨nmA, fnA, vs ++ [⟨A, n⟩]⟩ : EnumDescriptor).findValueByName v.name).isSome := by
    intro v hv
    apply find_name_isSome EnumValue.name
    simp only [List.map_append, List.mem_append]
    exact Or.inl (List.mem_map_of_mem _ hv)
  simp only [compareEnum, Section.items]
  rw [enumPass1Items_append, enumPass2Items_append,
    enumPass1Items_nil vs _ h2vs, enumPass2Items_nil vs _ h1vs]
  simp [enumPass1Items, enumPass2Items, h2A, h1B]

/-- Witness for C5: `E{A=1}` versus `E{B=1}` yields one removal of `A` and
one addition of `B`. -/
theorem enum_value_rename_is_remove_add_witness :
    (compareEnum ⟨"E", "pkg.E", [⟨"A", 1⟩]⟩ ⟨"E", "pkg.E", [⟨"B", 1⟩]⟩).items
      = [⟨.Enum_Value_Removed, "A", ""⟩, ⟨.Enum_Value_Added, "", "B"⟩] :=
  enum_value_rename_is_remove_add [] "E" "E" "pkg.E" "pkg.E" "A" "B" 1
    (by simp) (by simp) (by decide)

/-- Every item of whole-schema pass 1 is a `File_Message_Removed`. -/
theorem filesMsgRemoved_types (ms : List MessageDescriptor) (f2 : FileDescriptor) :
    ∀ it ∈ filesMsgRemoved ms f2, it.type = .File_Message_Removed := by
  induction ms with
  | nil => intro it h; simp [filesMsgRemoved] at h
  | cons m rest ih =>
    intro it h
    cases hfind : f2.findMessageTypeByName m.name with
    | none =>
      simp only [filesMsgRemoved, hfind] at h
      rcases List.mem_cons.mp h with rfl | h'
      · rfl
      · exact ih it h'
    | some w =>
      simp only [filesMsgRemoved, hfind] at h
      exact ih it h

/-- Every item of whole-schema pass 2 is a `File_Message_Added`. -/
theorem filesMsgAdded_types (ms : List MessageDescriptor) (f1 : FileDescriptor) :
    ∀ it ∈ filesMsgAdded ms f1, it.type = .File_Message_Added := by
  induction ms with
  | nil => intro it h; simp [filesMsgAdded] at h
  | cons m rest ih =>
    intro it h
    cases hfind : f1.findMessageTypeByName m.name with
    | none =>
      simp only [filesMsgAdded, hfind] at h
      rcases List.mem_cons.mp h with rfl | h'
      · rfl
      · exact ih it h'
    | some w =>
      simp only [filesMsgAdded, hfind] at h
      exact ih it h

/-- Every item of whole-schema pass 3 is a `File_Enum_Removed`. -/
theorem filesEnumRemoved_types (es : List EnumDescriptor) (f2 : FileDescriptor) :
    ∀ it ∈ filesEnumRemoved es f2, it.type = .File_Enum_Removed := by
  induction es with
  | nil => intro it h; simp [filesEnumRemoved] at h
  | cons e rest ih =>
    intro it h
    cases hfind : f2.findEnumTypeByName e.name with
    | none =>
      simp only [filesEnumRemoved, hfind] at h
      rcases List.mem_cons.mp h with rfl | h'
      · rfl
      · exact ih it h'
    | some w =>
      simp only [filesEnumRemoved, hfind] at h
      exact ih it h

/-- Every item of whole-schema pass 4 is a `File_Enum_Added`. -/
theorem filesEnumAdded_types (es : List EnumDescriptor) (f1 : FileDescriptor) :
    ∀ it ∈ filesEnumAdded es f1, it.type = .File_Enum_Added := by
  induction es with
  | nil => intro it h; simp [filesEnumAdded] at h
  | cons e rest ih =>
    intro it h
    cases hfind : f1.findEnumTypeByName e.name with
    | none =>
      simp only [filesEnumAdded, hfind] at h
      rcases List.mem_cons.mp h with rfl | h'
      · rfl
      · exact ih it h'
    | some w =>
      simp only [filesEnumAdded, hfind] at h
      exact ih it h

/-- When exactly the message `M` of the list is absent from the first
file, whole-schema pass 2 emits exactly one added item — carrying the
one-space `before` string the source passes. -/
theorem filesMsgAdded_single (ms : List MessageDescriptor) (f1 : FileDescriptor)
    (M : MessageDescriptor) (hM : M ∈ ms)
    (hnd : (ms.map MessageDescriptor.name).Nodup)
    (hmiss : f1.findMessageTypeByName M.name = none)
    (hoth : ∀ m ∈ ms, m.name ≠ M.name → (f1.findMessageTypeByName m.name).isSome) :
    filesMsgAdded ms f1 = [⟨.File_Message_Added, " ", M.full_name⟩] := by
  induction ms with
  | nil => cases hM
  | cons m rest ih =>
    simp only [List.map_cons, List.nodup_cons] at hnd
    rcases List.mem_cons.mp hM with rfl | hM'
    · have hrest : filesMsgAdded rest f1 = [] := by
        apply filesMsgAdded_nil
        intro u hu
        apply hoth u (List.mem_cons_of_mem _ hu)
        intro he
        exact hnd.1 (he ▸ List.mem_map_of_mem MessageDescriptor.name hu)
      simp only [filesMsgAdded, hmiss, hrest]
    · have hmname : m.name ≠ M.name := by
        intro he
        apply hnd.1
        rw [he]
        exact List.mem_map_of_mem MessageDescriptor.name hM'
      have hms := hoth m (List.mem_cons_self m rest) hmname
      cases hfind : f1.findMessageTypeByName m.name with
      | none => rw [hfind] at hms; simp at hms
      | some w =>
        simp only [filesMsgAdded, hfind]
        exact ih hM' hnd.2 (fun u hu hn => hoth u (List.mem_cons_of_mem m hu) hn)

/-- When exactly the message `M` of the list is absent from the second
file, whole-schema pass 1 emits exactly one removed item. -/
theorem filesMsgRemoved_single (ms : List MessageDescriptor) (f2 : FileDescriptor)
    (M : MessageDescriptor) (hM : M ∈ ms)
    (hnd : (ms.map MessageDescriptor.name).Nodup)
    (hmiss : f2.findMessageTypeByName M.name = none)
    (hoth : ∀ m ∈ ms, m.name ≠ M.name → (f2.findMessageTypeByName m.name).isSome) :
    filesMsgRemoved ms f2 = [⟨.File_Message_Removed, M.full_name, ""⟩] := by
  induction ms with
  | nil => cases hM
  | cons m rest ih =>
    simp only [List.map_cons, List.nodup_cons] at hnd
    rcases List.mem_cons.mp hM with rfl | hM'
    · have hrest : filesMsgRemoved rest f2 = [] := by
        apply filesMsgRemoved_nil
        intro u hu
        apply hoth u (List.mem_cons_of_mem _ hu)
        intro he
        exact hnd.1 (he ▸ List.mem_map_of_mem MessageDescriptor.name hu)
      simp only [filesMsgRemoved, hmiss, hrest]
    · have hmname : m.name ≠ M.name := by
        intro he
        apply hnd.1
        rw [he]
        exact List.mem_map_of_mem MessageDescriptor.name hM'
      have hms := hoth m (List.mem_cons_self m rest) hmname
      cases hfind : f2.findMessageTypeByName m.name with
      | none => rw [hfind] at hms; simp at hms
      | some w =>
        simp only [filesMsgRemoved, hfind]
        exact ih hM' hnd.2 (fun u hu hn => hoth u (List.mem_cons_of_mem m hu) hn)

/-- Claim C6 (amended): when a message `M` exists only in the second schema —
every other message of the second schema resolving in the first — the
whole-schema comparison `compare(a,b)` reports exactly one
`File_Message_Added` item with `after` = `M`'s full name and `before` the
one-space string `" "` the source passes, and `compare(b,a)` reports
exactly one `File_Message_Removed` item with `before` = `M`'s full name
and `after` empty. -/
theorem message_only_in_b_reported_add_remove
    (fa fb : FileDescriptor) (M : MessageDescriptor)
    (hM : M ∈ fb.message_types)
    (hnd : (fb.message_types.map MessageDescriptor.name).Nodup)
    (hmiss : fa.findMessageTypeByName M.name = none)
    (hoth : ∀ m ∈ fb.message_types, m.name ≠ M.name →
        (fa.findMessageTypeByName m.name).isSome) :
    ((compareFiles fa fb).items.filter
        (fun it => it.type == ItemType.File_Message_Added))
        = [⟨.File_Message_Added, " ", M.full_name⟩]
      ∧ ((compareFiles fb fa).items.filter
        (fun it => it.type == ItemType.File_Message_Removed))
        = [⟨.File_Message_Removed, M.full_name, ""⟩] := by
  constructor
  · simp only [compareFiles, Section.items, List.filter_append]
    have hA : (filesMsgRemoved fa.message_types fb).filter
        (fun it => it.type == ItemType.File_Message_Added) = [] := by
      rw [List.filter_eq_nil_iff]
      intro it hit
      rw [filesMsgRemoved_types _ _ it hit]
      simp
    have hC : (filesEnumRemoved fa.enum_types fb).filter
        (fun it => it.type == ItemType.File_Message_Added) = [] := by
      rw [List.filter_eq_nil_iff]
      intro it hit
      rw [filesEnumRemoved_types _ _ it hit]
      simp
    have hD : (filesEnumAdded fb.enum_types fa).filter
        (fun it => it.type == ItemType.File_Message_Added) = [] := by
      rw [List.filter_eq_nil_iff]
      intro it hit
      rw [filesEnumAdded_types _ _ it hit]
      simp
    have hB : (filesMsgAdded fb.message_types fa).filter
        (fun it => it.type == ItemType.File_Message_Added)
        = [⟨.File_Message_Added, " ", M.full_name⟩] := by
      rw [filesMsgAdded_single fb.message_types fa M hM hnd hmiss hoth]
      simp [List.filter]
    rw [hA, hB, hC, hD]
    simp
  · simp only [compareFiles, Section.items, List.filter_append]
    have hB : (filesMsgAdded fa.message_types fb).filter
        (fun it => it.type == ItemType.File_Message_Removed) = [] := by
      rw [List.filter_eq_nil_iff]
      intro it hit
      rw [filesMsgAdded_types _ _ it hit]
      simp
    have hC : (filesEnumRemoved fb.enum_types fa).filter
        (fun it => it.type == ItemType.File_Message_Removed) = [] := by
      rw [List.filter_eq_nil_iff]
      intro it hit
      rw [filesEnumRemoved_types _ _ it hit]
      simp
    have hD : (filesEnumAdded fa.enum_types fb).filter
        (fun it => it.type == ItemType.File_Message_Removed) = [] := by
      rw [List.filter_eq_nil_iff]
      intro it hit
      rw [filesEnumAdded_types _ _ it hit]
      simp
    have hA : (filesMsgRemoved fb.message_types fa).filter
        (fun it => it.type == ItemType.File_Message_Removed)
        = [⟨.File_Message_Removed, M.full_name, ""⟩] := by
      rw [filesMsgRemoved_single fb.message_types fa M hM hnd hmiss hoth]
      simp [List.filter]
    rw [hA, hB, hC, hD]
    simp

/-- A schema file with no content, used as concrete input. -/
def egFileEmpty : FileDescriptor := ⟨[], []⟩

/-- A schema file containing only the message `pkg.M`. -/
def egFileM : FileDescriptor := ⟨[egMsg], []⟩

/-- Counterexample to claim C6 as stated: at these concrete schemas (message `pkg.M` only in
the second) the single `File_Message_Added` item carries the one-space
string `" "` — not the empty string — as its `before` payload, so no item
with an empty `before` exists. -/
theorem file_message_added_before_not_empty :
    (compareFiles egFileEmpty egFileM).items
        = [⟨.File_Message_Added, " ", "pkg.M"⟩]
      ∧ ¬ (∃ it ∈ (compareFiles egFileEmpty egFileM).items,
            it.type = .File_Message_Added ∧ it.a = "" ∧ it.b = "pkg.M") := by
  constructor
  · simp only [egFileEmpty, egFileM, egMsg, compareFiles, Section.items]
    decide
  · simp only [egFileEmpty, egFileM, egMsg, compareFiles, Section.items]
    decide

/-- Witness for the amended C6 at the concrete schemas. -/
theorem message_only_in_b_reported_add_remove_witness :
    ((compareFiles egFileEmpty egFileM).items.filter
        (fun it => it.type == ItemType.File_Message_Added))
        = [⟨.File_Message_Added, " ", "pkg.M"⟩]
      ∧ ((compareFiles egFileM egFileEmpty).items.filter
        (fun it => it.type == ItemType.File_Message_Removed))
        = [⟨.File_Message_Removed, "pkg.M", ""⟩] := by
  have h := message_only_in_b_reported_add_remove egFileEmpty egFileM egMsg
    (by simp [egFileM]) (by simp [egFileM]) (by rfl)
    (by
      intro m hm hne
      simp only [egFileM, List.mem_singleton] at hm
      subst hm
      exact absurd rfl hne)
  simpa [egMsg, MessageDescriptor.full_name] using h

/-- Claim C7: when the requested name resolves to a message only in the first
schema's registry and to an enum in neither registry, the single-entity
comparison produces exactly one `Name_Missing` item carrying the name in
both payload slots, and nothing else. -/
theorem name_missing_single_item (s1 s2 : Source) (nm : String)
    (h1 : (s1.pool.findMessageTypeByName nm).isSome)
    (h2 : s2.pool.findMessageTypeByName nm = none)
    (h3 : s1.pool.findEnumTypeByName nm = none)
    (h4 : s2.pool.findEnumTypeByName nm = none) :
    compareByName s1 s2 nm
      = Section.mk .Root_Section "" "" [] [⟨.Name_Missing, nm, nm⟩] := by
  unfold compareByName
  cases hd1 : s1.pool.findMessageTypeByName nm with
  | none => rw [hd1] at h1; simp at h1
  | some d1 => rw [h2, h3, h4]

/-- A pool holding only the example message, used as concrete input. -/
def egPoolM : Pool := ⟨[egMsg], []⟩

/-- An empty pool, used as concrete input. -/
def egPoolEmpty : Pool := ⟨[], []⟩

/-- An enum that reuses the qualified name `pkg.M`, used to build a
cross-kind resolution input. -/
def egEnumM : EnumDescriptor := ⟨"M", "pkg.M", [⟨"A", 1⟩]⟩

/-- A pool holding only the enum named `pkg.M`, used as concrete input. -/
def egPoolE : Pool := ⟨[], [egEnumM]⟩

/-- A source whose pool holds only the example message. -/
def egSourceM : Source := ⟨egFileM, egPoolM⟩

/-- A source with an empty pool. -/
def egSourceEmpty : Source := ⟨egFileEmpty, egPoolEmpty⟩

/-- A source whose pool holds only the enum named `pkg.M`. -/
def egSourceE : Source := ⟨⟨[], [egEnumM]⟩, egPoolE⟩

/-- Witness for C7 at concrete sources: `pkg.M` resolves as a message only
in the first source. -/
theorem name_missing_single_item_witness :
    compareByName egSourceM egSourceEmpty "pkg.M"
      = Section.mk .Root_Section "" "" [] [⟨.Name_Missing, "pkg.M", "pkg.M"⟩] :=
  name_missing_single_item egSourceM egSourceEmpty "pkg.M"
    (by decide) (by rfl) (by rfl) (by rfl)

/-- Claim C10: cross-kind resolution (message in one registry, only an enum in
the other) yields the single `Name_Missing` item with no recursion; and
whenever single-entity comparison recurses at all (the root gains a child
section), the name resolved as a message in both registries or as an enum
in both registries. -/
theorem cross_kind_resolution_is_name_missing :
    (∀ (s1 s2 : Source) (nm : String),
      (s1.pool.findMessageTypeByName nm).isSome →
      s2.pool.findMessageTypeByName nm = none →
      s1.pool.findEnumTypeByName nm = none →
      (s2.pool.findEnumTypeByName nm).isSome →
      compareByName s1 s2 nm
        = Section.mk .Root_Section "" "" [] [⟨.Name_Missing, nm, nm⟩])
    ∧ (∀ (s1 s2 : Source) (nm : String),
      (compareByName s1 s2 nm).subsections ≠ [] →
      ((s1.pool.findMessageTypeByName nm).isSome
          ∧ (s2.pool.findMessageTypeByName nm).isSome)
        ∨ ((s1.pool.findEnumTypeByName nm).isSome
          ∧ (s2.pool.findEnumTypeByName nm).isSome)) := by
  constructor
  · intro s1 s2 nm h1 h2 h3 h4
    unfold compareByName
    cases hd1 : s1.pool.findMessageTypeByName nm with
    | none => rw [hd1] at h1; simp at h1
    | some d1 => rw [h2, h3]
  · intro s1 s2 nm hsub
    unfold compareByName at hsub
    cases hd1 : s1.pool.findMessageTypeByName nm with
    | some d1 =>
      cases hd2 : s2.pool.findMessageTypeByName nm with
      | some d2 => exact Or.inl ⟨by simp [hd1], by simp [hd2]⟩
      | none =>
        rw [hd1, hd2] at hsub
        cases he1 : s1.pool.findEnumTypeByName nm with
        | some e1 =>
          cases he2 : s2.pool.findEnumTypeByName nm with
          | some e2 => exact Or.inr ⟨by simp [he1], by simp [he2]⟩
          | none => rw [he1, he2] at hsub; simp [Section.subsections] at hsub
        | none => rw [he1] at hsub; simp [Section.subsections] at hsub
    | none =>
      rw [hd1] at hsub
      cases he1 : s1.pool.findEnumTypeByName nm with
      | some e1 =>
        cases he2 : s2.pool.findEnumTypeByName nm with
        | some e2 => exact Or.inr ⟨by simp [he1], by simp [he2]⟩
        | none => rw [he1, he2] at hsub; simp [Section.subsections] at hsub
      | none => rw [he1] at hsub; simp [Section.subsections] at hsub

/-- Witness for C10 at concrete sources: `pkg.M` resolves as a message in
the first source and only as an enum in the second. -/
theorem cross_kind_resolution_is_name_missing_witness :
    compareByName egSourceM egSourceE "pkg.M"
      = Section.mk .Root_Section "" "" [] [⟨.Name_Missing, "pkg.M", "pkg.M"⟩] := by
  have h := cross_kind_resolution_is_name_missing.1 egSourceM egSourceE "pkg.M"
    (by decide) (by rfl) (by rfl) (by decide)
  exact h

/-- Concatenate rendered lines, one line feed after each. -/
def linesToString : List String → String
  | [] => ""
  | l :: rest => l ++ "\n" ++ linesToString rest

/-- The bullet lines of an item list at the given indentation. -/
def itemLines (its : List Item) (pre : String) : List String :=
  its.map (fun it => pre ++ "* " ++ it.message)

mutual
/-- The rendering contract stated by the spec: a section's full rendering
is its own line at `2*level` spaces of indentation, then its items as
bullet lines one level deeper, then its children's renderings one level
deeper — a pre-order, depth-indented dump. -/
def Section.renderLines : Section → Nat → List String
  | .mk t a b subs its, level =>
    (indentStr (level * 2) ++ (Section.mk t a b subs its).message)
      :: (itemLines its (indentStr ((level + 1) * 2))
          ++ renderLinesList subs (level + 1))
termination_by s _ => sizeOf s

/-- Concatenated renderings of a list of sibling sections. -/
def renderLinesList : List Section → Nat → List String
  | [], _ => []
  | s :: rest, lv => s.renderLines lv ++ renderLinesList rest lv
termination_by l _ => sizeOf l
end

/-- Line concatenation distributes over list append. -/
theorem linesToString_append (a b : List String) :
    linesToString (a ++ b) = linesToString a ++ linesToString b := by
  induction a with
  | nil => simp [linesToString]
  | cons l rest ih => simp [linesToString, ih, String.append_assoc]

/-- The item loop of `Section::print` appends exactly the bullet lines. -/
theorem printItemsAcc_spec (its : List Item) (pre acc : String) :
    printItemsAcc its pre acc = acc ++ linesToString (itemLines its pre) := by
  induction its generalizing acc with
  | nil => simp [printItemsAcc, itemLines, linesToString]
  | cons it rest ih =>
    simp [printItemsAcc, itemLines, linesToString, ih, String.append_assoc]

/-- `Section::print` appends exactly the spec's pre-order rendering to the
output accumulated so far. -/
theorem printAcc_spec :
    ∀ s : Section, ∀ (level : Nat) (acc : String),
      s.printAcc level acc = acc ++ linesToString (s.renderLines level) := by
  apply Section.inductionOn
    (fun s => ∀ (level : Nat) (acc : String),
      s.printAcc level acc = acc ++ linesToString (s.renderLines level))
  intro t a b subs its ih level acc
  have hsubs : ∀ (l : List Section), (∀ u ∈ l, u ∈ subs) → ∀ (lv : Nat) (acc0 : String),
      printSubsAcc l lv acc0 = acc0 ++ linesToString (renderLinesList l lv) := by
    intro l
    induction l with
    | nil => intro _ lv acc0; simp [printSubsAcc, renderLinesList, linesToString]
    | cons u rest ihl =>
      intro hmem lv acc0
      simp only [printSubsAcc, renderLinesList]
      rw [ih u (hmem u (List.mem_cons_self u rest)) lv acc0,
        ihl (fun v hv => hmem v (List.mem_cons_of_mem u hv)) lv,
        linesToString_append, String.append_assoc]
  simp only [Section.printAcc, Section.renderLines]
  rw [printItemsAcc_spec, hsubs subs (fun u hu => hu) (level + 1)]
  simp [linesToString, linesToString_append, String.append_assoc]

/-- Claim C9: the full rendering of a section is a pre-order, depth-indented
dump — first the section's own single line from its kind and names, then
each item as a bullet line, then each child section's full rendering, one
indentation level deeper. -/
theorem print_is_preorder_depth_indented_dump (s : Section) (level : Nat) :
    s.printAcc level "" = linesToString (s.renderLines level)
      ∧ s.renderLines level
        = (indentStr (level * 2) ++ s.message)
          :: (itemLines s.items (indentStr ((level + 1) * 2))
              ++ renderLinesList s.subsections (level + 1)) := by
  constructor
  · rw [printAcc_spec s level ""]
    simp
  · cases s with
    | mk t a b subs its =>
      simp [Section.renderLines, Section.items, Section.subsections]

/-- Claim C8: the comparison pipeline is a deterministic function of its two
loaded schemas and the requested name — two runs on the same inputs
produce byte-identical rendered output. -/
theorem comparison_is_deterministic (s1 s2 : Source) (nm : String)
    (out1 out2 : String)
    (h1 : out1 = runComparison s1 s2 nm)
    (h2 : out2 = runComparison s1 s2 nm) :
    out1 = out2 :=
  h1.trans h2.symm

/-- Witness for C8: two runs at concrete inputs agree. -/
theorem comparison_is_deterministic_witness :
    runComparison egSourceM egSourceEmpty "pkg.M"
      = runComparison egSourceM egSourceEmpty "pkg.M" :=
  comparison_is_deterministic egSourceM egSourceEmpty "pkg.M" _ _ rfl rfl
